import Mathlib

/-!
# Verification of `pathops.py` (Inkscape "multi bool" extension)

Shallow embedding of the pure logic of `src/pathops.py`:

* an SVG document is modelled as a rose tree of elements (`Node`), each
  carrying a tag name, an attribute list and a list of children;
* the element predicates (`is_group`, `is_path`, ... `does_pathops`) follow
  the Python helpers one-to-one;
* `recurse_selection`, `z_sort`, `z_iter` and `chunks` are direct
  translations of the list-processing helpers;
* the side-effecting parts of `PathOps.effect` (messages, file copies,
  external process invocations, file removal, document replacement) are
  modelled as a trace of `Event`s produced by the pure function `effect`.
-/

/-- lxml-style namespaced tag/attribute name, standing in for
`inkex.addNS(tag, ns)` (the real helper expands `ns` to a URI; only
injectivity on the fixed set of names used below matters here). -/
def addNS (tag ns : String) : String := "\x7b" ++ ns ++ "\x7d" ++ tag

/-- `SVG_SHAPES` global constant. -/
def SVG_SHAPES : List String := ["rect", "circle", "ellipse", "line", "polyline", "polygon"]

/-- An XML element: tag name, attribute list, children (document order). -/
inductive Node where
  | mk (tag : String) (attrs : List (String × String)) (children : List Node)

/-- Tag name of an element. -/
def Node.tag : Node → String
  | .mk t _ _ => t

/-- Attribute list of an element. -/
def Node.attrs : Node → List (String × String)
  | .mk _ a _ => a

/-- Children of an element, in document order. -/
def Node.children : Node → List Node
  | .mk _ _ c => c

/-- First-match attribute lookup (lxml `node.get(key)`, `None` when absent). -/
def getAttr : List (String × String) → String → Option String
  | [], _ => none
  | (k, v) :: rest, key => if k = key then some v else getAttr rest key

/-- `node.get(key)`. -/
def Node.get (n : Node) (key : String) : Option String := getAttr n.attrs key

/-- `is_group`: check node for group tag. -/
def is_group (node : Node) : Bool := node.tag = addNS "g" "svg"

/-- `is_path`: check node for path tag. -/
def is_path (node : Node) : Bool := node.tag = addNS "path" "svg"

/-- `is_basic_shape`: check node for SVG basic shape tag. -/
def is_basic_shape (node : Node) : Bool :=
  (SVG_SHAPES.map (fun tag => addNS tag "svg")).contains node.tag

/-- `is_custom_shape`: check node for Inkscape custom shape type attribute. -/
def is_custom_shape (node : Node) : Bool :=
  (node.get (addNS "type" "sodipodi")).isSome

/-- `is_shape`: basic shape tag or custom shape type. -/
def is_shape (node : Node) : Bool := is_basic_shape node || is_custom_shape node

/-- `is_text`: check node for text tag. -/
def is_text (node : Node) : Bool := node.tag = addNS "text" "svg"

/-- `does_pathops`: whether node is supported by Inkscape path operations. -/
def does_pathops (node : Node) : Bool :=
  is_path node || is_shape node || is_text node

mutual

/-- `recurse_selection(node, id_list, level, current)`: recursively process
selection, add checked elements to id list.  `id_list` entries are
`node.get('id')` results, hence `Option String` (Python may append `None`). -/
def recurse_selection (node : Node) (id_list : List (Option String))
    (level : Nat) (current : Nat) : List (Option String) :=
  match node with
  | .mk t a cs =>
    let node := Node.mk t a cs
    let current := current + 1
    let id_list :=
      if level = 0 || current ≤ level then
        if is_group node then
          recurse_children cs id_list level current
        else id_list
      else id_list
    if does_pathops node then id_list ++ [node.get "id"] else id_list

/-- The `for child in node:` loop inside `recurse_selection`, threading the
accumulated id list through the children left to right. -/
def recurse_children (nodes : List Node) (id_list : List (Option String))
    (level : Nat) (current : Nat) : List (Option String) :=
  match nodes with
  | [] => id_list
  | c :: cs => recurse_children cs (recurse_selection c id_list level current) level current

end

mutual

/-- lxml `node.iter()`: depth-first pre-order traversal, the node itself first. -/
def Node.iter : Node → List Node
  | .mk t a cs => .mk t a cs :: iterList cs

/-- Pre-order traversal of a forest, left to right. -/
def iterList : List Node → List Node
  | [] => []
  | c :: cs => Node.iter c ++ iterList cs

end

/-- Python `id_list.remove(x)`: drop the first occurrence of `x`.
(Python raises `ValueError` when `x` is absent; both call sites test
membership first, so that case is unreachable there.) -/
def removeFirst : List (Option String) → Option String → List (Option String)
  | [], _ => []
  | y :: ys, x => if y = x then ys else y :: removeFirst ys x

/-- The loop body shared textually by `z_sort` and `z_iter`, run over an
explicit element list: for each element whose id is a member of `id_list`,
remove the id (first occurrence, Python `list.remove`) and emit it.
Returns (emitted ids, final state of the mutated `id_list`). -/
def z_iter_loop : List Node → List (Option String) → List String × List (Option String)
  | [], l => ([], l)
  | e :: rest, l =>
    match e.get "id" with
    | none => z_iter_loop rest l
    | some eid =>
      if some eid ∈ l then
        let r := z_iter_loop rest (removeFirst l (some eid))
        (eid :: r.1, r.2)
      else z_iter_loop rest l

/-- `z_iter(node, id_list)`: iterator over ids in document order; first
component is the fully-consumed generator output, second the final state of
the caller's (mutated) id list. -/
def z_iter (node : Node) (id_list : List (Option String)) :
    List String × List (Option String) :=
  z_iter_loop (Node.iter node) id_list

/-- The loop of `z_sort`, with the running `count` (an `Int`, following
Python's unbounded integers: `count -= 1; if not count: break`). -/
def z_sort_loop : List Node → List (Option String) → Int → List String
  | [], _, _ => []
  | e :: rest, l, count =>
    match e.get "id" with
    | none => z_sort_loop rest l count
    | some eid =>
      if some eid ∈ l then
        if count - 1 = 0 then [eid]
        else eid :: z_sort_loop rest (removeFirst l (some eid)) (count - 1)
      else z_sort_loop rest l count

/-- `z_sort(node, id_list)`: id list in document order (depth-first
traversal), with `count = len(id_list)` and early `break` once it hits 0. -/
def z_sort (node : Node) (id_list : List (Option String)) : List String :=
  z_sort_loop (Node.iter node) id_list (id_list.length : Int)

/-- `chunks(alist, max_len)`: chunk a list into sublists of `max_len` length
(`alist[i:i+max_len]` for `i in range(0, len(alist), max_len)`).
A step of `0` raises `ValueError` in Python and is mapped to `[]`;
all uses below have a nonzero step. -/
def chunks : List α → Nat → List (List α)
  | _, 0 => []
  | [], _ + 1 => []
  | a :: l, m + 1 => (a :: l).take (m + 1) :: chunks ((a :: l).drop m.succ) (m + 1)
termination_by l _ => l.length
decreasing_by
  simp only [List.drop_succ_cons, List.length_drop, List.length_cons]
  omega

/-- Pre-order sequence of the ids present in the document (ids of
`node.iter()` in order, absent ids skipped). -/
def docOrderIds (root : Node) : List String :=
  (Node.iter root).filterMap (fun e => Node.get e "id")

/-! ## The `PathOps` effect pipeline -/

/-- GUI options of the `PathOps` effect (`OptionParser` fields). -/
structure Options where
  ink_verb : String
  max_count : Int
  recursive_sel : Bool
  dry_run : Bool
deriving DecidableEq

/-- The state `PathOps.effect` runs against: the current selection (root
nodes, in `selected.values()` order), the document root, and the name of the
source SVG file. -/
structure PathOpsState where
  selected : List Node
  document : Node
  svg_file : String
  options : Options

/-- An observable side effect of `PathOps.effect`:
user messages (`inkex.errormsg` / `inkex.debug`), the temp-file copy
(`copy2`), one external process invocation per chunk (`run(cmdlist)`), and
the temp-file removal (`cleanup`). -/
inductive Event where
  | errormsg (msg : String)
  | debug (msg : String)
  | debugList (l : List String)
  | copy2 (src dst : String)
  | run (cmd : List String)
  | remove (path : String)
deriving DecidableEq

/-- What `self.document` holds when `effect` returns: unchanged, or replaced
by parsing the named temp file (whose contents the external processes wrote
and are not modelled). -/
inductive FinalDoc where
  | unchanged
  | replacedFromFile (path : String)
deriving DecidableEq

/-- Result of one `effect` run: the event trace, the final document, and
whether an uncaught Python exception escaped (`sorted_ids.pop()` on `[]`). -/
structure EffectResult where
  events : List Event
  document : FinalDoc
  crashed : Bool
deriving DecidableEq

/-- The error message of `get_selected_ids`. -/
def errormsgText : String :=
  "This extension requires at least 2 elements " ++
  "of type path, shape or text. " ++
  "The elements can be part of selected groups, " ++
  "or directly selected."

/-- The id-collection loop of `get_selected_ids`:
`for node in self.selected.values(): recurse_selection(node, id_list, level)`
(with `current` defaulting to 0). An empty selection leaves the list empty,
matching the `if not len(self.selected): pass` branch. -/
def collect_ids (selected : List Node) (level : Nat) : List (Option String) :=
  selected.foldl (fun acc node => recurse_selection node acc level 0) []

/-- `get_selected_ids`: the collected id list, or `None` (after reporting
`errormsgText`) when fewer than 2 ids were collected.
`level = 0 if recursive_sel else 1`. -/
def get_selected_ids (selected : List Node) (recursive_sel : Bool) :
    Option (List (Option String)) :=
  let level := if recursive_sel then 0 else 1
  let id_list := collect_ids selected level
  if id_list.length < 2 then none else some id_list

/-- Lines 254-255 of `get_sorted_ids`:
`sorted_ids = list(z_iter(root, id_list)); top_path = sorted_ids.pop()`.
`none` models the `IndexError` that `pop()` raises on an empty list. -/
def sort_and_pop (root : Node) (id_list : List (Option String)) :
    Option (String × List String) :=
  let sorted_ids := (z_iter root id_list).1
  match sorted_ids.getLast? with
  | none => none
  | some top_path => some (top_path, sorted_ids.dropLast)

/-- `get_sorted_ids`: top-most path and the list of the remaining z-sorted
ids (`(None, None)` is collapsed into `none`). -/
def get_sorted_ids (root : Node) (selected : List Node) (recursive_sel : Bool) :
    Option (String × List String) :=
  (get_selected_ids selected recursive_sel).bind (fun id_list => sort_and_pop root id_list)

/-- The command list built for one chunk (lines 284-295): start from
`["inkscape"]`, append five arguments per chunk member, then the
save/quit/file tail. -/
def build_cmdlist (chunk : List String) (top_path ink_verb tempfile : String) :
    List String :=
  let cmdlist := ["inkscape"]
  let cmdlist := chunk.foldl (fun acc child =>
    acc ++ ["--select=" ++ top_path, "--verb=EditDuplicate",
            "--select=" ++ child, "--verb=" ++ ink_verb,
            "--verb=EditDeselect"]) cmdlist
  cmdlist ++ ["--verb=FileSave", "--verb=FileQuit", "-f", tempfile]

/-- `os.path.splitext(p)[0]` (simplified: everything before the last dot;
the exact temp-file name plays no role in the claims below). -/
def splitext_root (p : String) : String :=
  match p.splitOn "." with
  | [] => p
  | [_] => p
  | parts => String.intercalate "." parts.dropLast

/-- The dry-run branch of the chunk loop: `count` is incremented before each
report, so chunks are numbered from 1. -/
def dry_chunk_events (batches : List (List String))
    (top_path ink_verb tempfile : String) : List Event :=
  batches.enum.flatMap (fun p =>
    [Event.debug ("Chunk[" ++ toString (p.1 + 1) ++ "] size: " ++ toString p.2.length),
     Event.debugList (build_cmdlist p.2 top_path ink_verb tempfile)])

/-- `PathOps.effect`, as a pure function from the state to the event trace
and final document. Control flow follows the source:
fewer than 2 collected ids → error message and early return;
`sorted_ids.pop()` on an empty list → crash (uncaught `IndexError`);
otherwise one chunk loop, reported in dry-run mode and executed otherwise,
with the temp copy made, parsed back and removed only when not in dry-run.
A negative effective `max_count` makes `range(0, len, step)` empty, hence no
chunks (`chunks` itself is only called with a positive step). -/
def effect (s : PathOpsState) : EffectResult :=
  let level := if s.options.recursive_sel then 0 else 1
  let id_list := collect_ids s.selected level
  if id_list.length < 2 then
    { events := [Event.errormsg errormsgText], document := .unchanged, crashed := false }
  else
    let sorted_ids := (z_iter s.document id_list).1
    match sorted_ids.getLast? with
    | none => { events := [], document := .unchanged, crashed := true }
    | some top_path =>
      let other_paths := sorted_ids.dropLast
      let max_count := if s.options.max_count = 0 then 500 else s.options.max_count
      let ink_verb := if s.options.ink_verb = "" then "SelectionDiff" else s.options.ink_verb
      let tempfile := splitext_root s.svg_file ++ "-pathops.svg"
      let batches := if max_count < 0 then [] else chunks other_paths max_count.toNat
      if s.options.dry_run then
        { events := Event.debug ("Other paths: " ++ toString other_paths.length) ::
            dry_chunk_events batches top_path ink_verb tempfile,
          document := .unchanged, crashed := false }
      else
        { events := Event.copy2 s.svg_file tempfile ::
            (batches.map (fun c => Event.run (build_cmdlist c top_path ink_verb tempfile)) ++
             [Event.remove tempfile]),
          document := .replacedFromFile tempfile, crashed := false }

/-- An event that invokes the external process. -/
def Event.isInvocation : Event → Bool
  | .run _ => true
  | _ => false

/-- An event that creates, overwrites or removes a file. -/
def Event.isFileOp : Event → Bool
  | .copy2 _ _ => true
  | .remove _ => true
  | _ => false

/-! ## Lemmas about the shared traversal loop -/

/-- `removeFirst` is `List.erase` at the `BEq` instance derived from
decidable equality (the instance Mathlib's `erase` lemmas are stated at). -/
theorem removeFirst_eq_erase (l : List (Option String)) (x : Option String) :
    removeFirst l x = @List.erase (Option String) instBEqOfDecidableEq l x := by
  induction l with
  | nil => rfl
  | cons y ys ih =>
    by_cases h : y = x
    · subst h
      simp [removeFirst, List.erase_cons]
    · simp only [removeFirst, List.erase_cons, if_neg h]
      rw [if_neg (by simpa using h), ih]

theorem perm_cons_removeFirst {x : Option String} {l : List (Option String)}
    (h : x ∈ l) : l.Perm (x :: removeFirst l x) := by
  rw [removeFirst_eq_erase]
  exact List.perm_cons_erase h

theorem removeFirst_perm (x : Option String) {l₁ l₂ : List (Option String)}
    (p : l₁.Perm l₂) : (removeFirst l₁ x).Perm (removeFirst l₂ x) := by
  rw [removeFirst_eq_erase, removeFirst_eq_erase]
  exact p.erase x

theorem length_removeFirst_of_mem {x : Option String} {l : List (Option String)}
    (h : x ∈ l) : (removeFirst l x).length = l.length - 1 := by
  induction l with
  | nil => exact absurd h (List.not_mem_nil x)
  | cons y ys ih =>
    by_cases hy : y = x
    · simp [removeFirst, hy]
    · have hx : x ∈ ys := by
        rcases List.mem_cons.mp h with h1 | h1
        · exact absurd h1.symm hy
        · exact h1
      have hpos : 0 < ys.length := List.length_pos.mpr (List.ne_nil_of_mem hx)
      simp only [removeFirst, if_neg hy, List.length_cons, ih hx]
      omega

theorem mem_removeFirst_of_ne {a x : Option String} {l : List (Option String)}
    (h : a ≠ x) : a ∈ removeFirst l x ↔ a ∈ l := by
  induction l with
  | nil => simp [removeFirst]
  | cons y ys ih =>
    by_cases hy : y = x
    · subst hy
      simp only [removeFirst, if_pos rfl, List.mem_cons]
      exact ⟨fun h1 => Or.inr h1, fun h1 => h1.resolve_left h⟩
    · simp only [removeFirst, if_neg hy, List.mem_cons, ih]

theorem mem_of_mem_removeFirst {a x : Option String} {l : List (Option String)}
    (h : a ∈ removeFirst l x) : a ∈ l := by
  induction l with
  | nil => simp [removeFirst] at h
  | cons y ys ih =>
    by_cases hy : y = x
    · rw [removeFirst, if_pos hy] at h
      exact List.mem_cons_of_mem y h
    · rw [removeFirst, if_neg hy] at h
      rcases List.mem_cons.mp h with h1 | h1
      · exact h1 ▸ List.mem_cons_self y ys
      · exact List.mem_cons_of_mem y (ih h1)

theorem z_iter_loop_nil_right (es : List Node) : z_iter_loop es [] = ([], []) := by
  induction es with
  | nil => rfl
  | cons e rest ih =>
    cases h : Node.get e "id" with
    | none => simp [z_iter_loop, h, ih]
    | some eid => simp [z_iter_loop, h, ih]

theorem z_sort_loop_nil_right (es : List Node) (c : Int) : z_sort_loop es [] c = [] := by
  induction es generalizing c with
  | nil => rfl
  | cons e rest ih =>
    cases h : Node.get e "id" with
    | none => simp [z_sort_loop, h, ih]
    | some eid => simp [z_sort_loop, h, ih]

/-- The output of the loop depends only on the multiset of ids, and leftover
lists of permuted inputs are permutations of each other. -/
theorem z_iter_loop_congr_perm (es : List Node) {l₁ l₂ : List (Option String)}
    (h : l₁.Perm l₂) :
    (z_iter_loop es l₁).1 = (z_iter_loop es l₂).1 ∧
      (z_iter_loop es l₁).2.Perm (z_iter_loop es l₂).2 := by
  induction es generalizing l₁ l₂ with
  | nil => exact ⟨rfl, h⟩
  | cons e rest ih =>
    cases hid : Node.get e "id" with
    | none => simpa [z_iter_loop, hid] using ih h
    | some eid =>
      by_cases hm : some eid ∈ l₁
      · have hm₂ : some eid ∈ l₂ := h.mem_iff.mp hm
        have hih := ih (removeFirst_perm (some eid) h)
        simp only [z_iter_loop, hid, hm, hm₂, if_true]
        exact ⟨by rw [hih.1], hih.2⟩
      · have hm₂ : some eid ∉ l₂ := fun hh => hm (h.mem_iff.mpr hh)
        simpa [z_iter_loop, hid, hm, hm₂] using ih h

/-- The emitted ids form a subsequence of the ids of the visited elements. -/
theorem z_iter_loop_sublist (es : List Node) (l : List (Option String)) :
    (z_iter_loop es l).1.Sublist (es.filterMap (fun e => Node.get e "id")) := by
  induction es generalizing l with
  | nil => simp [z_iter_loop]
  | cons e rest ih =>
    cases hid : Node.get e "id" with
    | none => simpa [z_iter_loop, List.filterMap_cons, hid] using ih l
    | some eid =>
      by_cases hm : some eid ∈ l
      · simpa [z_iter_loop, hid, hm, List.filterMap_cons] using (ih (removeFirst l (some eid))).cons₂ eid
      · simpa [z_iter_loop, hid, hm, List.filterMap_cons] using (ih l).cons eid

/-- Each input entry either gets emitted or survives in the leftover list. -/
theorem z_iter_loop_perm_decomp (es : List Node) (l : List (Option String)) :
    l.Perm ((z_iter_loop es l).1.map some ++ (z_iter_loop es l).2) := by
  induction es generalizing l with
  | nil => simp [z_iter_loop]
  | cons e rest ih =>
    cases hid : Node.get e "id" with
    | none => simpa [z_iter_loop, hid] using ih l
    | some eid =>
      by_cases hm : some eid ∈ l
      · have h1 : l.Perm (some eid :: removeFirst l (some eid)) := perm_cons_removeFirst hm
        have h2 := ih (removeFirst l (some eid))
        simp only [z_iter_loop, hid, hm, if_true, List.map_cons, List.cons_append]
        exact h1.trans (h2.cons (some eid))
      · simpa [z_iter_loop, hid, hm] using ih l

theorem z_iter_loop_leftover_subset (es : List Node) (l : List (Option String))
    {x : Option String} (h : x ∈ (z_iter_loop es l).2) : x ∈ l :=
  (z_iter_loop_perm_decomp es l).mem_iff.mpr (List.mem_append_right _ h)

/-- Completeness: an id present in the input list and carried by some visited
element is emitted. -/
theorem z_iter_loop_mem_output (es : List Node) (l : List (Option String)) (i : String)
    (hl : some i ∈ l) (hes : i ∈ es.filterMap (fun e => Node.get e "id")) :
    i ∈ (z_iter_loop es l).1 := by
  induction es generalizing l with
  | nil => simp at hes
  | cons e rest ih =>
    cases hid : Node.get e "id" with
    | none =>
      simp only [List.filterMap_cons, hid] at hes
      simpa [z_iter_loop, hid] using ih l hl hes
    | some eid =>
      simp only [List.filterMap_cons, hid] at hes
      by_cases hm : some eid ∈ l
      · by_cases hei : eid = i
        · subst hei
          simp [z_iter_loop, hid, hm]
        · have hes' : i ∈ rest.filterMap (fun e => Node.get e "id") := by
            rcases List.mem_cons.mp hes with h1 | h1
            · exact absurd h1.symm hei
            · exact h1
          have hl' : some i ∈ removeFirst l (some eid) :=
            (mem_removeFirst_of_ne (by simpa using Ne.symm hei)).mpr hl
          simp only [z_iter_loop, hid, hm, if_true]
          exact List.mem_cons_of_mem _ (ih _ hl' hes')
      · have hei : eid ≠ i := fun hh => hm (hh ▸ hl)
        have hes' : i ∈ rest.filterMap (fun e => Node.get e "id") := by
          rcases List.mem_cons.mp hes with h1 | h1
          · exact absurd h1.symm hei
          · exact h1
        simpa [z_iter_loop, hid, hm] using ih l hl hes'

/-- Soundness: every emitted id was in the input list and is carried by some
visited element. -/
theorem z_iter_loop_output_mem (es : List Node) (l : List (Option String)) (i : String)
    (h : i ∈ (z_iter_loop es l).1) :
    some i ∈ l ∧ i ∈ es.filterMap (fun e => Node.get e "id") := by
  induction es generalizing l with
  | nil => simp [z_iter_loop] at h
  | cons e rest ih =>
    cases hid : Node.get e "id" with
    | none =>
      have h' : i ∈ (z_iter_loop rest l).1 := by simpa [z_iter_loop, hid] using h
      obtain ⟨ha, hb⟩ := ih l h'
      exact ⟨ha, by simp [List.filterMap_cons, hid, hb]⟩
    | some eid =>
      by_cases hm : some eid ∈ l
      · have h' : i = eid ∨ i ∈ (z_iter_loop rest (removeFirst l (some eid))).1 := by
          simpa [z_iter_loop, hid, hm] using h
        rcases h' with h1 | h2
        · subst h1
          exact ⟨hm, by simp [List.filterMap_cons, hid]⟩
        · obtain ⟨ha, hb⟩ := ih _ h2
          exact ⟨mem_of_mem_removeFirst ha, by simp [List.filterMap_cons, hid, hb]⟩
      · have h' : i ∈ (z_iter_loop rest l).1 := by simpa [z_iter_loop, hid, hm] using h
        obtain ⟨ha, hb⟩ := ih l h'
        exact ⟨ha, by simp [List.filterMap_cons, hid, hb]⟩

/-- An id that appears on no visited element survives in the leftover list. -/
theorem z_iter_loop_leftover_of_absent (es : List Node) (l : List (Option String)) (i : String)
    (hl : some i ∈ l) (hes : i ∉ es.filterMap (fun e => Node.get e "id")) :
    some i ∈ (z_iter_loop es l).2 := by
  induction es generalizing l with
  | nil => simpa [z_iter_loop] using hl
  | cons e rest ih =>
    cases hid : Node.get e "id" with
    | none =>
      have hes' : i ∉ rest.filterMap (fun e => Node.get e "id") := by
        simp only [List.filterMap_cons, hid] at hes; exact hes
      simpa [z_iter_loop, hid] using ih l hl hes'
    | some eid =>
      have hei : eid ≠ i := by
        intro hh
        exact hes (by simp [List.filterMap_cons, hid, hh])
      have hes' : i ∉ rest.filterMap (fun e => Node.get e "id") := by
        simp only [List.filterMap_cons, hid] at hes
        exact fun hh => hes (List.mem_cons_of_mem _ hh)
      by_cases hm : some eid ∈ l
      · have hl' : some i ∈ removeFirst l (some eid) :=
          (mem_removeFirst_of_ne (by simpa using Ne.symm hei)).mpr hl
        simpa [z_iter_loop, hid, hm] using ih _ hl' hes'
      · simpa [z_iter_loop, hid, hm] using ih l hl hes'

/-- `z_sort`'s counted loop computes exactly what the fully-consumed
`z_iter` loop emits: the `break` fires just when the id list has been
emptied, after which no further element can match. -/
theorem z_sort_loop_eq_z_iter_loop (es : List Node) (l : List (Option String)) :
    z_sort_loop es l (l.length : Int) = (z_iter_loop es l).1 := by
  induction es generalizing l with
  | nil => rfl
  | cons e rest ih =>
    cases hid : Node.get e "id" with
    | none => simpa [z_sort_loop, z_iter_loop, hid] using ih l
    | some eid =>
      by_cases hm : some eid ∈ l
      · have hpos : 0 < l.length := List.length_pos.mpr (List.ne_nil_of_mem hm)
        have hlen : (removeFirst l (some eid)).length = l.length - 1 :=
          length_removeFirst_of_mem hm
        by_cases h1 : l.length = 1
        · have her : removeFirst l (some eid) = [] :=
            List.eq_nil_of_length_eq_zero (by omega)
          simp [z_sort_loop, z_iter_loop, hid, hm, h1, her, z_iter_loop_nil_right]
        · have hne : ¬((l.length : Int) - 1 = 0) := by omega
          have hne' : ¬(((removeFirst l (some eid)).length : Int) = 0) := by omega
          have hcast : (l.length : Int) - 1 = ((removeFirst l (some eid)).length : Int) := by
            rw [hlen]; omega
          simp only [z_sort_loop, z_iter_loop, hid, hm, if_true, hcast, hne', if_false]
          rw [ih]
      · simpa [z_sort_loop, z_iter_loop, hid, hm] using ih l

/-- Once the prefix `es₁` has emptied the id list, the elements after it
contribute nothing: `z_sort`'s early `break` never reaches them. -/
theorem z_sort_loop_early_stop (es₁ es₂ : List Node) (l : List (Option String))
    (h : (z_iter_loop es₁ l).2 = []) :
    z_sort_loop (es₁ ++ es₂) l (l.length : Int) = z_sort_loop es₁ l (l.length : Int) := by
  induction es₁ generalizing l with
  | nil =>
    have hl : l = [] := by simpa [z_iter_loop] using h
    subst hl
    simp [z_sort_loop_nil_right, z_sort_loop]
  | cons e rest ih =>
    cases hid : Node.get e "id" with
    | none =>
      have h' : (z_iter_loop rest l).2 = [] := by simpa [z_iter_loop, hid] using h
      simpa [z_sort_loop, hid] using ih l h'
    | some eid =>
      by_cases hm : some eid ∈ l
      · have h' : (z_iter_loop rest (removeFirst l (some eid))).2 = [] := by
          simpa [z_iter_loop, hid, hm] using h
        have hpos : 0 < l.length := List.length_pos.mpr (List.ne_nil_of_mem hm)
        have hlen : (removeFirst l (some eid)).length = l.length - 1 :=
          length_removeFirst_of_mem hm
        by_cases h1 : l.length = 1
        · simp [z_sort_loop, hid, hm, h1]
        · have hne : ¬((l.length : Int) - 1 = 0) := by omega
          have hne' : ¬(((removeFirst l (some eid)).length : Int) = 0) := by omega
          have hcast : (l.length : Int) - 1 = ((removeFirst l (some eid)).length : Int) := by
            rw [hlen]; omega
          simp only [List.cons_append, List.append_eq, z_sort_loop, hid, hm, if_true,
            hcast, hne', if_false]
          rw [ih _ h']
      · have h' : (z_iter_loop rest l).2 = [] := by simpa [z_iter_loop, hid, hm] using h
        simpa [z_sort_loop, hid, hm] using ih l h'
/-! ## Lemmas about `chunks` -/

theorem chunks_flatten {α : Type} (l : List α) (m : Nat) (hm : 0 < m) :
    (chunks l m).flatten = l := by
  revert hm
  induction l, m using chunks.induct with
  | case1 l => intro hm; exact absurd hm (by omega)
  | case2 m => intro _; simp [chunks]
  | case3 a l m ih =>
    intro _
    simp only [List.drop_succ_cons] at ih
    simp only [chunks, List.drop_succ_cons, List.flatten_cons]
    rw [ih (by omega)]
    have : l.drop m = (a :: l).drop (m + 1) := rfl
    rw [this]
    exact List.take_append_drop _ _

theorem chunks_length {α : Type} (l : List α) (m : Nat) (hm : 0 < m) :
    (chunks l m).length = (l.length + m - 1) / m := by
  revert hm
  induction l, m using chunks.induct with
  | case1 l => intro hm; exact absurd hm (by omega)
  | case2 m =>
    intro _
    simp only [chunks, List.length_nil]
    rw [Nat.div_eq_of_lt (by omega)]
  | case3 a l m ih =>
    intro _
    simp only [List.drop_succ_cons] at ih
    simp only [chunks, List.drop_succ_cons, List.length_cons]
    rw [ih (by omega)]
    simp only [List.length_drop]
    have hr : l.length + 1 + (m + 1) - 1 = l.length + (m + 1) := by omega
    rw [hr, Nat.add_div_right _ (by omega)]
    rcases Nat.lt_or_ge m l.length with hlt | hge
    · have h1 : l.length - m + (m + 1) - 1 = l.length := by omega
      rw [h1]
    · have h1 : l.length - m + (m + 1) - 1 = m := by omega
      rw [h1, Nat.div_eq_of_lt (by omega), Nat.div_eq_of_lt (by omega)]

theorem chunks_mem_size {α : Type} (l : List α) (m : Nat) (hm : 0 < m) :
    ∀ c ∈ chunks l m, 0 < c.length ∧ c.length ≤ m := by
  revert hm
  induction l, m using chunks.induct with
  | case1 l => intro hm; exact absurd hm (by omega)
  | case2 m => intro _ c hc; simp [chunks] at hc
  | case3 a l m ih =>
    intro _ c hc
    simp only [List.drop_succ_cons] at ih
    simp only [chunks, List.drop_succ_cons] at hc
    rcases List.mem_cons.mp hc with h1 | h2
    · subst h1
      simp only [List.length_take, List.length_cons]
      omega
    · exact ih (by omega) c h2

theorem chunks_dropLast_size {α : Type} (l : List α) (m : Nat) (hm : 0 < m) :
    ∀ c ∈ (chunks l m).dropLast, c.length = m := by
  revert hm
  induction l, m using chunks.induct with
  | case1 l => intro hm; exact absurd hm (by omega)
  | case2 m => intro _ c hc; simp [chunks] at hc
  | case3 a l m ih =>
    intro _ c hc
    simp only [List.drop_succ_cons] at ih
    by_cases hd : l.drop m = []
    · simp [chunks, List.drop_succ_cons, hd] at hc
    · have htail : chunks (l.drop m) (m + 1) ≠ [] := by
        cases hld : l.drop m with
        | nil => exact absurd hld hd
        | cons x xs => simp [chunks]
      simp only [chunks, List.drop_succ_cons] at hc
      rw [List.dropLast_cons_of_ne_nil htail] at hc
      rcases List.mem_cons.mp hc with h1 | h2
      · subst h1
        have hpos : 0 < (l.drop m).length := List.length_pos.mpr hd
        rw [List.length_drop] at hpos
        simp only [List.length_take, List.length_cons]
        omega
      · exact ih (by omega) c h2

/-! ## Lemmas about `recurse_selection` -/

/-- With `level = 1` and `current = 1` (a direct child of a selected group),
no further descent happens: the child contributes its own id exactly when it
is operable. -/
theorem recurse_selection_child_level1 (c : Node) (l : List (Option String)) :
    recurse_selection c l 1 1 =
      if does_pathops c then l ++ [Node.get c "id"] else l := by
  cases c with
  | mk t a cs => simp [recurse_selection]

/-- The child loop at `level = 1`, `current = 1` appends the ids of exactly
the operable direct children, in order. -/
theorem recurse_children_level1 (cs : List Node) (l : List (Option String)) :
    recurse_children cs l 1 1 =
      l ++ (cs.filter does_pathops).map (fun c => Node.get c "id") := by
  induction cs generalizing l with
  | nil => simp [recurse_children]
  | cons c cs ih =>
    rw [recurse_children, recurse_selection_child_level1]
    by_cases h : does_pathops c
    · rw [if_pos h, ih, List.filter_cons, if_pos h]
      simp [List.append_assoc]
    · rw [if_neg h, ih, List.filter_cons, if_neg h]

/-! ## Further helpers -/

theorem perm_of_map_some_perm {l₁ l₂ : List String}
    (h : (l₁.map some).Perm (l₂.map some)) : l₁.Perm l₂ := by
  rw [List.perm_iff_count]
  intro a
  have hc := h.count_eq (some a)
  rwa [List.count_map_of_injective _ some (Option.some_injective _) a,
    List.count_map_of_injective _ some (Option.some_injective _) a] at hc

theorem foldl_append_eq_flatMap {α β : Type} (f : α → List β) (l : List α)
    (acc : List β) :
    l.foldl (fun a c => a ++ f c) acc = acc ++ l.flatMap f := by
  induction l generalizing acc with
  | nil => simp
  | cons c cs ih => simp [ih, List.flatMap_cons, List.append_assoc]

theorem dry_chunk_events_harmless (batches : List (List String))
    (top_path ink_verb tempfile : String) :
    ∀ e ∈ dry_chunk_events batches top_path ink_verb tempfile,
      e.isInvocation = false ∧ e.isFileOp = false := by
  intro e he
  unfold dry_chunk_events at he
  rcases List.mem_flatMap.mp he with ⟨p, _, hp⟩
  rcases List.mem_cons.mp hp with h1 | h1
  · subst h1; exact ⟨rfl, rfl⟩
  · rcases List.mem_cons.mp h1 with h2 | h2
    · subst h2; exact ⟨rfl, rfl⟩
    · exact absurd h2 (List.not_mem_nil e)

/-! ## The claims -/

/-- **C2.** For every list of length `L` and every positive maximum batch
size `M`, `chunks` produces exactly `⌈L/M⌉ = (L + M - 1) / M` batches;
concatenating the batches in order yields the original list exactly (no
overlap, no gaps, order preserved); every batch except possibly the last has
size exactly `M`; and every batch is nonempty of size at most `M`. -/
theorem C2_chunks_partition {α : Type} (l : List α) (m : Nat) (hm : 0 < m) :
    (chunks l m).length = (l.length + m - 1) / m ∧
    (chunks l m).flatten = l ∧
    (∀ c ∈ (chunks l m).dropLast, c.length = m) ∧
    (∀ c ∈ chunks l m, 0 < c.length ∧ c.length ≤ m) :=
  ⟨chunks_length l m hm, chunks_flatten l m hm,
    chunks_dropLast_size l m hm, chunks_mem_size l m hm⟩

theorem C2_chunks_partition_witness :
    0 < 2 ∧
    (chunks [1, 2, 3, 4, 5] 2).length = (5 + 2 - 1) / 2 ∧
    (chunks [1, 2, 3, 4, 5] 2).flatten = [1, 2, 3, 4, 5] :=
  ⟨by decide, (C2_chunks_partition [1, 2, 3, 4, 5] 2 (by decide)).1,
    (C2_chunks_partition [1, 2, 3, 4, 5] 2 (by decide)).2.1⟩

/-- **C4.** The command list built for a batch is: the executable name, then
for each operand in batch order the five arguments select-top, duplicate,
select-operand, apply-verb, deselect, then the save directive, the quit
directive, and the target file argument. -/
theorem C4_cmdlist_structure (chunk : List String) (top_path ink_verb tempfile : String) :
    build_cmdlist chunk top_path ink_verb tempfile =
      "inkscape" ::
        (chunk.flatMap (fun child =>
          ["--select=" ++ top_path, "--verb=EditDuplicate",
           "--select=" ++ child, "--verb=" ++ ink_verb,
           "--verb=EditDeselect"])) ++
        ["--verb=FileSave", "--verb=FileQuit", "-f", tempfile] := by
  simp only [build_cmdlist, foldl_append_eq_flatMap]
  simp

/-- **C9.** The eager implementation `z_sort` and the generator
implementation `z_iter` (fully consumed), each run on its own copy of the id
list, produce the same ordered output for every document tree and id list. -/
theorem C9_z_sort_eq_z_iter (node : Node) (id_list : List (Option String)) :
    z_sort node id_list = (z_iter node id_list).1 :=
  z_sort_loop_eq_z_iter_loop (Node.iter node) id_list

/-- **C6.** The document-order sort visits the document in a single
depth-first traversal, removing each found id from the target set and
appending it to the output, and stops early once the set is empty: if a
prefix `es₁` of the traversal already empties the id list, the elements
after it are never visited — `z_sort` computes the same result as the loop
run on the prefix alone. -/
theorem C6_sort_early_stop (root : Node) (es₁ es₂ : List Node)
    (l : List (Option String)) (hsplit : Node.iter root = es₁ ++ es₂)
    (h : (z_iter_loop es₁ l).2 = []) :
    z_sort root l = z_sort_loop es₁ l (l.length : Int) := by
  unfold z_sort
  rw [hsplit]
  exact z_sort_loop_early_stop es₁ es₂ l h

/-- **C10.** The output of the document-order sort contains exactly those
input ids that occur as the id of some document element; an input id
appearing on no element is silently omitted (no error — the function is
total) and remains in the caller's mutated input list. -/
theorem C10_absent_ids_skipped (root : Node) (l : List (Option String)) (i : String) :
    (i ∈ (z_iter root l).1 ↔ some i ∈ l ∧ i ∈ docOrderIds root) ∧
    (some i ∈ l → i ∉ docOrderIds root → some i ∈ (z_iter root l).2) := by
  constructor
  · constructor
    · intro h
      exact z_iter_loop_output_mem (Node.iter root) l i h
    · rintro ⟨h1, h2⟩
      exact z_iter_loop_mem_output (Node.iter root) l i h1 h2
  · intro h1 h2
    exact z_iter_loop_leftover_of_absent (Node.iter root) l i h1 h2

/-- **C7.** With the recursive flag off (`level = 1`), only the direct
children of a selected group are considered: the result extends the incoming
list by the ids of the operable direct children (when the root is a group)
and the root's own id (when the root is operable) — elements nested at depth
2 or more are never added. -/
theorem C7_one_level_recursion (node : Node) (l : List (Option String)) :
    recurse_selection node l 1 0 =
      (l ++ (if is_group node then
        (node.children.filter does_pathops).map (fun c => Node.get c "id") else [])) ++
      (if does_pathops node then [node.get "id"] else []) := by
  cases node with
  | mk t a cs =>
    simp only [recurse_selection]
    by_cases hg : is_group (Node.mk t a cs) <;>
      by_cases hp : does_pathops (Node.mk t a cs) <;>
        simp [hg, hp, recurse_children_level1, Node.children]

/-- **C8.** A root node that is itself operable and not a group is included
in the output list, for every recursion level and every incoming list. -/
theorem C8_operable_root_included (node : Node)
    (h1 : does_pathops node = true) (h2 : is_group node = false)
    (level : Nat) (l : List (Option String)) :
    recurse_selection node l level 0 = l ++ [node.get "id"] := by
  cases node with
  | mk t a cs =>
    simp only [recurse_selection]
    simp [h1, h2]

/-- **C1.** For every set of at least 2 ids scattered anywhere in the
document, the document-order sort returns exactly those ids (a permutation
of the input set) as a subsequence of the depth-first pre-order id sequence
of the document; the result is independent of the selection order; and the
pop step yields the last element of the sorted order as the top element with
the remaining prefix as the operands. -/
theorem C1_sort_exact_docorder (root : Node) (ids : List String)
    (hnd : ids.Nodup) (hlen : 2 ≤ ids.length)
    (hpres : ∀ i ∈ ids, i ∈ docOrderIds root) :
    (z_iter root (ids.map some)).1.Sublist (docOrderIds root) ∧
    (z_iter root (ids.map some)).1.Perm ids ∧
    (∀ ids2 : List String, ids2.Perm ids →
      (z_iter root (ids2.map some)).1 = (z_iter root (ids.map some)).1) ∧
    (∃ top operands, sort_and_pop root (ids.map some) = some (top, operands) ∧
      operands ++ [top] = (z_iter root (ids.map some)).1) := by
  have hndm : (ids.map some).Nodup := hnd.map (Option.some_injective String)
  have hleft : (z_iter root (ids.map some)).2 = [] := by
    rw [List.eq_nil_iff_forall_not_mem]
    intro x hx
    have hxl : x ∈ ids.map some :=
      z_iter_loop_leftover_subset (Node.iter root) (ids.map some) hx
    rcases List.mem_map.mp hxl with ⟨i, hi, rfl⟩
    have hout : i ∈ (z_iter root (ids.map some)).1 :=
      z_iter_loop_mem_output (Node.iter root) (ids.map some) i hxl (hpres i hi)
    have hperm := z_iter_loop_perm_decomp (Node.iter root) (ids.map some)
    have hn : (((z_iter root (ids.map some)).1.map some) ++
        (z_iter root (ids.map some)).2).Nodup := hperm.nodup hndm
    exact List.disjoint_of_nodup_append hn (List.mem_map_of_mem some hout) hx
  have hmperm : ((z_iter root (ids.map some)).1.map some).Perm (ids.map some) := by
    have hdec : (ids.map some).Perm
        ((z_iter root (ids.map some)).1.map some ++ (z_iter root (ids.map some)).2) :=
      z_iter_loop_perm_decomp (Node.iter root) (ids.map some)
    rw [hleft] at hdec
    simpa using hdec.symm
  have houtperm : (z_iter root (ids.map some)).1.Perm ids :=
    perm_of_map_some_perm hmperm
  refine ⟨z_iter_loop_sublist (Node.iter root) (ids.map some), houtperm, ?_, ?_⟩
  · intro ids2 h2
    exact (z_iter_loop_congr_perm (Node.iter root) (h2.map some)).1
  · have hne : (z_iter root (ids.map some)).1 ≠ [] := by
      intro hnil
      have hl := houtperm.length_eq
      rw [hnil] at hl
      simp at hl
      omega
    have hgl : (z_iter root (ids.map some)).1.getLast? =
        some ((z_iter root (ids.map some)).1.getLast hne) :=
      List.getLast?_eq_getLast_of_ne_nil hne
    refine ⟨(z_iter root (ids.map some)).1.getLast hne,
      (z_iter root (ids.map some)).1.dropLast, ?_,
      List.dropLast_append_getLast hne⟩
    simp only [sort_and_pop, hgl]

/-- **C3.** Whenever fewer than 2 qualifying ids are collected from the
selection (`get_selected_ids` returns `None`), the error message is the only
reported event — in particular no external invocation and no file operation
occurs — and the document is left unchanged. -/
theorem C3_too_few_ids_aborts (s : PathOpsState)
    (h : get_selected_ids s.selected s.options.recursive_sel = none) :
    (effect s).events = [Event.errormsg errormsgText] ∧
    (effect s).document = FinalDoc.unchanged ∧
    (effect s).crashed = false := by
  unfold get_selected_ids at h
  unfold effect
  by_cases hlen :
      (collect_ids s.selected (if s.options.recursive_sel then 0 else 1)).length < 2
  · simp [hlen]
  · simp only [hlen, if_false] at h
    exact (Option.some_ne_none _ h).elim

/-- **C5.** In dry-run mode, for every selection and option combination, no
external process is invoked and no file is copied, overwritten or removed
(the trace holds only messages), and the in-memory document is never
replaced. -/
theorem C5_dry_run_no_exec (s : PathOpsState) (h : s.options.dry_run = true) :
    (∀ e ∈ (effect s).events, e.isInvocation = false ∧ e.isFileOp = false) ∧
    (effect s).document = FinalDoc.unchanged := by
  unfold effect
  by_cases hlen :
      (collect_ids s.selected (if s.options.recursive_sel then 0 else 1)).length < 2
  · simp only [hlen, if_true]
    refine ⟨?_, trivial⟩
    intro e he
    have he' : e = Event.errormsg errormsgText := by simpa using he
    subst he'
    exact ⟨rfl, rfl⟩
  · simp only [hlen, if_false]
    rcases hgl : (z_iter s.document
        (collect_ids s.selected (if s.options.recursive_sel then 0 else 1))).1.getLast? with
      _ | top
    · simp only [hgl]
      exact ⟨fun e he => absurd he (List.not_mem_nil e), trivial⟩
    · simp only [hgl, h, if_true]
      refine ⟨?_, trivial⟩
      intro e he
      rcases List.mem_cons.mp he with h1 | h1
      · subst h1
        exact ⟨rfl, rfl⟩
      · exact dry_chunk_events_harmless _ _ _ _ e h1

/-! ## Concrete witnesses -/

/-- A path element with the given id. -/
def pathLeaf (i : String) : Node := Node.mk (addNS "path" "svg") [("id", i)] []

/-- A small document: a root with a direct path `a` and a group `g1` holding
paths `b` and `c` (pre-order ids: base, a, g1, b, c). -/
def sampleDoc : Node :=
  Node.mk (addNS "svg" "svg") [("id", "base")]
    [pathLeaf "a",
     Node.mk (addNS "g" "svg") [("id", "g1")] [pathLeaf "b", pathLeaf "c"]]

/-- A flat document with two paths, for the early-stop witness. -/
def twoPathDoc : Node :=
  Node.mk (addNS "svg" "svg") [("id", "root0")] [pathLeaf "a", pathLeaf "b"]

/-- A state with an empty selection. -/
def emptySelState : PathOpsState :=
  { selected := []
    document := sampleDoc
    svg_file := "drawing.svg"
    options :=
      { ink_verb := "SelectionDiff", max_count := 500
        recursive_sel := true, dry_run := false } }

/-- A dry-run state selecting the whole sample document. -/
def drySelState : PathOpsState :=
  { selected := [sampleDoc]
    document := sampleDoc
    svg_file := "drawing.svg"
    options :=
      { ink_verb := "SelectionUnion", max_count := 500
        recursive_sel := true, dry_run := true } }

theorem C1_sort_exact_docorder_witness :
    (["c", "a"] : List String).Nodup ∧
    2 ≤ (["c", "a"] : List String).length ∧
    "c" ∈ docOrderIds sampleDoc ∧ "a" ∈ docOrderIds sampleDoc ∧
    (z_iter sampleDoc (["c", "a"].map some)).1.Perm ["c", "a"] :=
  ⟨by decide, by decide, by decide, by decide,
    (C1_sort_exact_docorder sampleDoc ["c", "a"]
      (by decide) (by decide) (by decide)).2.1⟩

theorem C3_too_few_ids_aborts_witness :
    get_selected_ids emptySelState.selected emptySelState.options.recursive_sel = none ∧
    (effect emptySelState).events = [Event.errormsg errormsgText] ∧
    (effect emptySelState).document = FinalDoc.unchanged ∧
    (effect emptySelState).crashed = false :=
  ⟨by decide, (C3_too_few_ids_aborts emptySelState (by decide)).1,
    (C3_too_few_ids_aborts emptySelState (by decide)).2.1,
    (C3_too_few_ids_aborts emptySelState (by decide)).2.2⟩

theorem C5_dry_run_no_exec_witness :
    drySelState.options.dry_run = true ∧
    (effect drySelState).document = FinalDoc.unchanged :=
  ⟨rfl, (C5_dry_run_no_exec drySelState rfl).2⟩

theorem C6_sort_early_stop_witness :
    Node.iter twoPathDoc = [twoPathDoc, pathLeaf "a"] ++ [pathLeaf "b"] ∧
    (z_iter_loop [twoPathDoc, pathLeaf "a"] [some "a"]).2 = [] ∧
    z_sort twoPathDoc [some "a"] =
      z_sort_loop [twoPathDoc, pathLeaf "a"] [some "a"]
        (([some "a"] : List (Option String)).length : Int) :=
  ⟨rfl, by decide,
    C6_sort_early_stop twoPathDoc [twoPathDoc, pathLeaf "a"] [pathLeaf "b"]
      [some "a"] rfl (by decide)⟩

theorem C8_operable_root_included_witness :
    does_pathops (pathLeaf "p") = true ∧ is_group (pathLeaf "p") = false ∧
    recurse_selection (pathLeaf "p") [] 0 0 = [] ++ [(pathLeaf "p").get "id"] :=
  ⟨by decide, by decide,
    C8_operable_root_included (pathLeaf "p") (by decide) (by decide) 0 []⟩

theorem C10_absent_ids_skipped_witness :
    some "zzz" ∈ ([some "a", some "zzz"] : List (Option String)) ∧
    "zzz" ∉ docOrderIds sampleDoc ∧
    some "zzz" ∈ (z_iter sampleDoc [some "a", some "zzz"]).2 :=
  ⟨by decide, by decide,
    (C10_absent_ids_skipped sampleDoc [some "a", some "zzz"] "zzz").2
      (by decide) (by decide)⟩
